import Mathlib

/-!
Verification of the stella-search indexing-and-search core.

The definitions below are a shallow embedding of the Rust sources:
  * `src/database/schema.rs`, `src/database/queries.rs` — the SQLite-backed
    storage engine (files table with a UNIQUE path column, upsert, batch
    upsert inside one transaction, delete, LIKE-based search, stats);
  * `src/search/manager.rs` — `SearchManager` with primary/fallback backends
    and the sticky `using_fallback` flag;
  * `src/ipc/server.rs` — the IPC `Search` request handler;
  * `stella-search-daemon/src/indexer/mod.rs` — `start_initial_scan`;
  * `stella-search-daemon/src/indexer/watcher.rs` — `process_event`.

The SQLite `files` table is modelled as a list of rows in rowid order
(`Db.rows`) with a rowid counter (`Db.next_id`).  SQLite's `LIKE` operator
is modelled by `likeMatch` including its default behaviour: `%` and `_`
wildcards and ASCII-only case insensitivity.  `std::path::Path::file_name`
and `Path::extension` (Unix component rules, as exercised by the spec's
test vectors) are modelled by `fileName` and `rustExtension`.  Wall-clock
fields (`query_time_ms`, `database_size_bytes`) are modelled as 0: the code
fills them from the clock / the on-disk file, which carry no search
semantics.
-/

/-- SQLite's default ASCII-only case folding used by `LIKE`
(upper-case ASCII letters compare equal to their lower-case forms;
all other characters compare bytewise). -/
def sqliteFold (c : Char) : Char :=
  if 'A' ≤ c ∧ c ≤ 'Z' then Char.ofNat (c.toNat + 32) else c

/-- All suffixes of a character list, longest first (the list itself down
to `[]`). -/
def suffixes : List Char → List (List Char)
  | [] => [[]]
  | c :: t => (c :: t) :: suffixes t

/-- SQLite `LIKE` pattern matching (no ESCAPE clause, as in the queries of
`src/database/queries.rs`): `%` matches any sequence of characters (some
suffix of the remaining text continues the match), `_` matches any single
character, and ordinary characters match up to ASCII case. -/
def likeMatch : List Char → List Char → Bool
  | [], [] => true
  | [], _ :: _ => false
  | p :: ps, [] => if p = '%' then likeMatch ps [] else false
  | p :: ps, c :: t =>
    if p = '%' then (suffixes (c :: t)).any (fun x => likeMatch ps x)
    else if p = '_' then likeMatch ps t
    else (sqliteFold p = sqliteFold c) && likeMatch ps t

/-- Split a character list at `/` separators (Unix path components). -/
def splitSlash : List Char → List (List Char)
  | [] => [[]]
  | c :: rest =>
    let r := splitSlash rest
    if c = '/' then [] :: r
    else
      match r with
      | [] => [[c]]
      | h :: t => (c :: h) :: t

/-- The normal components of a path: empty components and `.` components are
dropped, mirroring how `std::path::Components` normalizes a Unix path. -/
def pathComponents (p : String) : List (List Char) :=
  (splitSlash p.data).filter (fun c => c ≠ [] ∧ c ≠ ['.'])

/-- `std::path::Path::file_name` followed by `unwrap_or_default()`, as used
by `upsert_file` and `batch_upsert_files`: the final normal component of the
path, or `""` when the path has none or ends in `..`. -/
def fileName (p : String) : String :=
  match (pathComponents p).getLast? with
  | none => ""
  | some c => if c = ['.', '.'] then "" else String.mk c

/-- The characters after the last `.` of a list, if any. -/
def extSplit : List Char → Option (List Char)
  | [] => none
  | c :: rest =>
    match extSplit rest with
    | some e => some e
    | none => if c = '.' then some rest else none

/-- `std::path::Path::extension` of a path whose file name is `n`: `none`
for an empty name or when the only `.` is the leading character (dotfiles),
otherwise the suffix after the last `.`. -/
def rustExtension (n : String) : Option String :=
  match n.data with
  | [] => none
  | _ :: rest => (extSplit rest).map String.mk

/-- The `extension` column value computed by `upsert_file` and the batch
upserts: `NULL` for directories, otherwise `Path::extension` of the path
prefixed with `"."` (`format!(".{}", e)`), when present. -/
def computedExtension (path : String) (is_dir : Bool) : Option String :=
  if is_dir then none
  else (rustExtension (fileName path)).map (fun e => "." ++ e)

/-- One row of the `files` table (`IndexedFile` in `queries.rs`). -/
structure IndexedFile where
  id : Int
  path : String
  name : String
  extension : Option String
  size : Int
  is_directory : Bool
deriving DecidableEq, Repr

/-- The `files` table in rowid order, plus the next rowid SQLite would
assign (`id INTEGER PRIMARY KEY` is an alias of the rowid; an upsert that
hits `ON CONFLICT(path) DO UPDATE` keeps the row's original rowid). -/
structure Db where
  rows : List IndexedFile
  next_id : Int
deriving DecidableEq, Repr

def emptyDb : Db := { rows := [], next_id := 1 }

/-- The SQL statement shared by `upsert_file`, `batch_upsert_files`, and
`batch_upsert_files_with_metadata`:
`INSERT INTO files (path, name, extension, size, is_directory) VALUES (...)
ON CONFLICT(path) DO UPDATE SET name = excluded.name, extension =
excluded.extension, size = excluded.size, is_directory =
excluded.is_directory`.  On conflict the row keeps its rowid; otherwise a
fresh row is appended with the next rowid. -/
def sqlUpsert (db : Db) (path name : String) (ext : Option String) (size : Int)
    (is_dir : Bool) : Db :=
  if db.rows.any (fun r => r.path == path) then
    { db with rows := db.rows.map (fun r =>
        if r.path == path then
          { r with name := name, extension := ext, size := size, is_directory := is_dir }
        else r) }
  else
    { db with
      rows := db.rows ++ [⟨db.next_id, path, name, ext, size, is_dir⟩],
      next_id := db.next_id + 1 }

/-- `Database::upsert_file` (`queries.rs:54`): computes `name` and
`extension` from the path and executes the upsert statement. -/
def Db.upsert_file (db : Db) (path : String) (is_directory : Bool) (size : Int) : Db :=
  sqlUpsert db path (fileName path) (computedExtension path is_directory) size is_directory

/-- `Database::delete_file` (`queries.rs:175`):
`DELETE FROM files WHERE path = ?1`. -/
def Db.delete_file (db : Db) (path : String) : Db :=
  { db with rows := db.rows.filter (fun r => !(r.path == path)) }

/-- `directory.replace('\\', "/")` from `delete_directory`. -/
def normalizeSeparators (s : String) : String :=
  String.mk (s.data.map (fun c => if c = '\\' then '/' else c))

/-- `Database::delete_directory` (`queries.rs:182`): builds the pattern
`format!("{}%", directory.replace('\\', "/"))` and runs
`DELETE FROM files WHERE path LIKE ?1`. -/
def Db.delete_directory (db : Db) (directory : String) : Db :=
  let pat := (normalizeSeparators directory).data ++ ['%']
  { db with rows := db.rows.filter (fun r => !(likeMatch pat r.path.data)) }

/-- `Database::clear_all` (`queries.rs:281`): `DELETE FROM files`. -/
def Db.clear_all (db : Db) : Db :=
  { db with rows := [] }

/-- `SearchResults` from `queries.rs` (`query_time_ms` modelled as 0). -/
structure SearchResults where
  files : List IndexedFile
  total_found : Nat
  query_time_ms : Nat
deriving DecidableEq, Repr

/-- The rows selected by `Database::search` before the `LIMIT` is applied:
with an extension filter, `WHERE extension = ?1 AND name LIKE ?2` (SQL `=`
on TEXT is a bytewise comparison, and `NULL = x` selects nothing);
otherwise `WHERE name LIKE ?1`, with the pattern `format!("%{}%", query)`. -/
def matchingRows (db : Db) (query : String) (extension : Option String) : List IndexedFile :=
  let pat := ("%" ++ query ++ "%").data
  match extension with
  | some e => db.rows.filter (fun r => decide (r.extension = some e) && likeMatch pat r.name.data)
  | none => db.rows.filter (fun r => likeMatch pat r.name.data)

/-- `Database::search` (`queries.rs:195`): LIKE-filtered rows capped by
`LIMIT ?`, with `total_found = files.len()`. -/
def Db.search (db : Db) (query : String) (max_results : Nat) (extension : Option String) :
    SearchResults :=
  let files := (matchingRows db query extension).take max_results
  { files := files, total_found := files.length, query_time_ms := 0 }

/-- `IndexStats` from `queries.rs`.  `database_size_bytes` is the on-disk
file size (modelled as 0); the last three fields are the constants
`get_stats` fills in before the indexer overwrites them. -/
structure IndexStats where
  indexed_files : Nat
  indexed_dirs : Nat
  database_size_bytes : Nat
  is_scanning : Bool
  scan_progress_ten_thousandths : Nat
  current_scan_path : Option String
deriving DecidableEq, Repr

/-- `Database::get_stats` (`queries.rs:251`):
`SELECT COUNT(*) FROM files WHERE is_directory = 0` / `... = 1`. -/
def Db.get_stats (db : Db) : IndexStats :=
  { indexed_files := (db.rows.filter (fun r => r.is_directory == false)).length
    indexed_dirs := (db.rows.filter (fun r => r.is_directory == true)).length
    database_size_bytes := 0
    is_scanning := false
    scan_progress_ten_thousandths := 0
    current_scan_path := none }

/-- `FileMetadata` from `queries.rs` (pre-computed metadata rows fed to
`batch_upsert_files_with_metadata`). -/
structure FileMetadata where
  path : String
  name : String
  size : Int
  is_directory : Bool
deriving DecidableEq, Repr

/-- One statement execution inside `batch_upsert_files_with_metadata`'s
transaction: the upsert statement with the caller-provided `name` and the
extension recomputed from `path`. -/
def upsertMeta (db : Db) (f : FileMetadata) : Db :=
  sqlUpsert db f.path f.name (computedExtension f.path f.is_directory) f.size f.is_directory

/-- `Database::batch_upsert_files_with_metadata` (`queries.rs:85`): all the
statements run inside one transaction; `commit = true` models `tx.commit()`
succeeding, `commit = false` models any abort before the commit (a failing
statement or a crash), in which case SQLite rolls the whole transaction
back and the table is left as it was. -/
def Db.batch_upsert_files_with_metadata (db : Db) (files : List FileMetadata)
    (commit : Bool) : Db :=
  if commit then files.foldl upsertMeta db else db

/-- One statement execution inside `batch_upsert_files`'s transaction:
name/extension computed from the path, size read from the filesystem
(`fs_size`, `unwrap_or(0)` folded into the oracle) for files and 0 for
directories. -/
def batchEntryUpsert (fs_size : String → Int) (db : Db) (e : String × Bool) : Db :=
  Db.upsert_file db e.1 e.2 (if e.2 then 0 else fs_size e.1)

/-- `Database::batch_upsert_files` (`queries.rs:126`), with the same
transaction model as `batch_upsert_files_with_metadata`. -/
def Db.batch_upsert_files (db : Db) (entries : List (String × Bool))
    (fs_size : String → Int) (commit : Bool) : Db :=
  if commit then entries.foldl (batchEntryUpsert fs_size) db else db

/-- The event-kind discriminants matched by `process_event`
(`stella-search-daemon/src/indexer/watcher.rs:85`): `notify::EventKind`
collapsed to the arms the code distinguishes. -/
inductive FsEventKind where
  | create
  | modify
  | remove
  | access
  | other
deriving DecidableEq, Repr

/-- The body of `process_event`'s per-path loop
(`watcher.rs:77`-`123`) for one event path.  The filesystem answers the
code's probes through the parameters: `fs_is_dir` is `path.is_dir()`,
`fs_size` is `metadata(path).len()` (with the `unwrap_or(0)` folded in),
`fs_exists` is `path.exists()`.  Excluded paths are skipped; `Create`
upserts; `Modify` upserts only when the path still exists; `Remove` runs
`delete_file` on the path; `Access`/`Other` are ignored. -/
def process_event_path (db : Db) (excluded : String → Bool) (kind : FsEventKind)
    (path : String) (fs_is_dir : Bool) (fs_size : Int) (fs_exists : Bool) : Db :=
  if excluded path then db
  else
    match kind with
    | FsEventKind.create => db.upsert_file path fs_is_dir (if fs_is_dir then 0 else fs_size)
    | FsEventKind.modify =>
        if fs_exists then db.upsert_file path fs_is_dir (if fs_is_dir then 0 else fs_size)
        else db
    | FsEventKind.remove => db.delete_file path
    | FsEventKind.access => db
    | FsEventKind.other => db

/-- `Indexer::start_initial_scan` (`stella-search-daemon/src/indexer/mod.rs:88`):
reads `get_stats()`, and if `indexed_files > 0` returns `Ok(())` at once
without touching the database; otherwise it runs the scanning pass
(MFT-then-walkdir), abstracted here as the state transformer `scan`.
The returned Bool records whether a scanning pass ran. -/
def start_initial_scan (db : Db) (scan : Db → Db) : Db × Bool :=
  if 0 < (Db.get_stats db).indexed_files then (db, false) else (scan db, true)

/-- The payload of the IPC `Request::Search` variant
(`stella-search-daemon/src/ipc/protocol.rs`). -/
structure SearchRequest where
  query : String
  max_results : Option Nat
  extensions : Option (List String)
  directories : Option (List String)
deriving DecidableEq, Repr

/-- `IpcServer::handle_request` on `Request::Search`
(`src/ipc/server.rs:41`-`54`): `directories` is bound to `_`,
`max_results.unwrap_or(50)`, and only
`extensions.as_ref().and_then(|e| e.first())` reaches `db.search`. -/
def handle_search_request (db : Db) (req : SearchRequest) : SearchResults :=
  Db.search db req.query (req.max_results.getD 50) (req.extensions.bind List.head?)

/-- `SearchError` from `src/search/mod.rs`. -/
inductive SearchError where
  | notAvailable
  | queryFailed (msg : String)
  | databaseError (msg : String)
deriving DecidableEq, Repr

/-- `SearchQuery` from `src/search/mod.rs`. -/
structure SearchQuery where
  query : String
  max_results : Nat
  extension : Option String
  directories : Option (List String)
deriving DecidableEq, Repr

/-- `SearchResult` from `src/search/mod.rs`. -/
structure SearchResult where
  files : List IndexedFile
  total_found : Nat
  query_time_ms : Nat
  backend_name : String
deriving DecidableEq, Repr

/-- A `SearchBackend` trait object (`src/search/mod.rs:83`): the
availability probe and the query entry point (`search` being a pure
function of the query models one fixed behaviour of the backend across the
calls under consideration). -/
structure Backend where
  is_available : Bool
  run : SearchQuery → Except SearchError SearchResult
  name : String

/-- `SearchManager` (`src/search/manager.rs:20`): primary backend, optional
fallback, and the sticky `using_fallback` flag. -/
structure SearchManager where
  primary : Backend
  fallback : Option Backend
  using_fallback : Bool

/-- The all-backends-failed result built at `manager.rs:159` and
`manager.rs:173`: empty files, zero total, zero time, backend `"none"`. -/
def emptySearchResult : SearchResult :=
  { files := [], total_found := 0, query_time_ms := 0, backend_name := "none" }

/-- `SearchManager::search_with_fallback` (`manager.rs:146`): query the
fallback if one is configured, else retry the primary; on error return
`emptySearchResult`.  The Bool records whether the primary backend was
invoked. -/
def search_with_fallback (m : SearchManager) (q : SearchQuery) : SearchResult × Bool :=
  match m.fallback with
  | some fb =>
    (match fb.run q with
     | Except.ok r => r
     | Except.error _ => emptySearchResult, false)
  | none =>
    (match m.primary.run q with
     | Except.ok r => r
     | Except.error _ => emptySearchResult, true)

/-- `SearchManager::search` (`manager.rs:111`): go straight to the fallback
when `using_fallback` is set; otherwise try the primary, setting the sticky
flag on `NotAvailable` before falling back, and falling back without
touching the flag on any other error.  Returns the result, the manager
state after the call (the `AtomicBool` made explicit), and whether the
primary backend was invoked during the call. -/
def SearchManager.search (m : SearchManager) (q : SearchQuery) :
    SearchResult × SearchManager × Bool :=
  if m.using_fallback then
    let rp := search_with_fallback m q
    (rp.1, m, rp.2)
  else
    match m.primary.run q with
    | Except.ok r => (r, m, true)
    | Except.error SearchError.notAvailable =>
      let m2 := { m with using_fallback := true }
      ((search_with_fallback m2 q).1, m2, true)
    | Except.error _ => ((search_with_fallback m q).1, m, true)

/-- `SearchManager::refresh_availability` (`manager.rs:243`, the Windows
build, the only one with a live primary probe): when on fallback and the
primary probes available, clear the sticky flag. -/
def SearchManager.refresh_availability (m : SearchManager) : SearchManager :=
  if m.using_fallback && m.primary.is_available then { m with using_fallback := false }
  else m

/-- A sequence of `search` calls, threading the manager state. -/
def run_queries (m : SearchManager) (qs : List SearchQuery) : SearchManager :=
  qs.foldl (fun acc q => (SearchManager.search acc q).2.1) m

/-- A sequence of `upsert_file` calls `(path, is_directory, size)`, in
order. -/
def apply_upserts (db : Db) (ops : List (String × Bool × Int)) : Db :=
  ops.foldl (fun d o => d.upsert_file o.1 o.2.1 o.2.2) db

/-- The `(is_directory, size)` arguments of the last upsert in `ops` whose
path is `p`, if any. -/
def lastUpsert : List (String × Bool × Int) → String → Option (Bool × Int)
  | [], _ => none
  | o :: rest, p =>
    match lastUpsert rest p with
    | some ds => some ds
    | none => if o.1 = p then some o.2 else none

/-- `path` is globally unique in the `files` table (the UNIQUE constraint
of `SCHEMA_SQL`, `src/database/schema.rs:119`). -/
def PathsUnique (rows : List IndexedFile) : Prop :=
  rows.Pairwise (fun a b => a.path ≠ b.path)

/-- Plain case-sensitive substring containment, the reading of
"contains the term as a substring" being checked against the code's
LIKE-based matching. -/
def isSubstringOf (needle hay : String) : Bool :=
  (List.range (hay.data.length + 1)).any (fun i => needle.data.isPrefixOf (hay.data.drop i))

/-- The spec's end-to-end state: `{"/x/a.txt", 100, file}`,
`{"/x/b.log", 50, file}`, `{"/x", 0, dir}` inserted into an empty index. -/
def exampleDb : Db :=
  ((emptyDb.upsert_file "/x/a.txt" false 100).upsert_file "/x/b.log" false 50).upsert_file
    "/x" true 0

/-- An index holding the single file `/x/a.txt` of size 100. -/
def dbSingleFile : Db := emptyDb.upsert_file "/x/a.txt" false 100

/-- An index holding the single file `/x/ab`. -/
def dbNameAB : Db := emptyDb.upsert_file "/x/ab" false 1

/-- An index holding the single file `/axb`. -/
def dbPathAXB : Db := emptyDb.upsert_file "/axb" false 1

/-- An index holding the directory `/d` and the file `/d/f.txt` under it. -/
def dbDirTree : Db := (emptyDb.upsert_file "/d" true 0).upsert_file "/d/f.txt" false 5

/-- A primary backend that is down and answers every probe/query with
`NotAvailable`. -/
def downPrimary : Backend :=
  { is_available := false
    run := fun _ => Except.error SearchError.notAvailable
    name := "WindowsSearch" }

/-- A primary backend whose liveness probe succeeds but whose queries
report `NotAvailable`. -/
def flakyPrimary : Backend :=
  { is_available := true
    run := fun _ => Except.error SearchError.notAvailable
    name := "WindowsSearch" }

/-- A fallback backend that fails every query with a database error. -/
def failingFallback : Backend :=
  { is_available := true
    run := fun _ => Except.error (SearchError.databaseError "db locked")
    name := "SQLite" }

/-- A fallback backend answering every query with an empty `Ok` result. -/
def okFallback : Backend :=
  { is_available := true
    run := fun _ => Except.ok { files := [], total_found := 0, query_time_ms := 0,
                                backend_name := "SQLite" }
    name := "SQLite" }

/-- A manager whose configured backends all fail. -/
def allFailManager : SearchManager :=
  { primary := downPrimary, fallback := some failingFallback, using_fallback := false }

/-- A manager with a working fallback and a primary that answers
`NotAvailable` but probes as available again afterwards. -/
def recoveringManager : SearchManager :=
  { primary := flakyPrimary, fallback := some okFallback, using_fallback := false }

/-- A sample query. -/
def q0 : SearchQuery :=
  { query := "report", max_results := 10, extension := none, directories := none }

/-! ## Helper lemmas -/

theorem nil_mem_suffixes : ∀ s : List Char, [] ∈ suffixes s
  | [] => List.mem_singleton.mpr rfl
  | _ :: t => List.mem_cons_of_mem _ (nil_mem_suffixes t)

theorem self_mem_suffixes : ∀ s : List Char, s ∈ suffixes s
  | [] => List.mem_singleton.mpr rfl
  | _ :: _ => List.mem_cons_self _ _

theorem mem_suffixes_cons {x t : List Char} (c : Char) (h : x ∈ suffixes t) :
    x ∈ suffixes (c :: t) :=
  List.mem_cons_of_mem _ h

theorem likeMatch_percent_any (s : List Char) : likeMatch ['%'] s = true := by
  cases s with
  | nil => rfl
  | cons c t =>
    rw [likeMatch]
    simp only [if_pos rfl]
    exact List.any_eq_true.mpr ⟨[], nil_mem_suffixes (c :: t), rfl⟩

/-- A LIKE pattern `p ++ "%"` accepts every string that literally starts
with `p`. -/
theorem likeMatch_append_percent (p t : List Char) : likeMatch (p ++ ['%']) (p ++ t) = true := by
  induction p generalizing t with
  | nil => simpa using likeMatch_percent_any t
  | cons a p ih =>
    by_cases ha : a = '%'
    · subst ha
      rw [List.cons_append, List.cons_append, likeMatch]
      simp only [if_pos rfl]
      exact List.any_eq_true.mpr
        ⟨p ++ t, mem_suffixes_cons _ (self_mem_suffixes _), ih t⟩
    · by_cases ha2 : a = '_'
      · subst ha2
        rw [List.cons_append, List.cons_append, likeMatch]
        simp [ha, ih t]
      · rw [List.cons_append, List.cons_append, likeMatch]
        simp [ha, ha2, ih t]

/-- The row transformer of the `ON CONFLICT ... DO UPDATE` branch never
changes a row's path. -/
theorem upd_path (p name : String) (ext : Option String) (size : Int) (d : Bool)
    (r : IndexedFile) :
    ((fun r => if r.path == p then
        { r with name := name, extension := ext, size := size, is_directory := d }
      else r) r).path = r.path := by
  by_cases h : (r.path == p) = true <;> simp [h]

theorem sqlUpsert_rows_of_any {db : Db} {p : String} (name : String) (ext : Option String)
    (size : Int) (d : Bool) (h : db.rows.any (fun r => r.path == p) = true) :
    (sqlUpsert db p name ext size d).rows = db.rows.map (fun r =>
      if r.path == p then
        { r with name := name, extension := ext, size := size, is_directory := d }
      else r) := by
  simp [sqlUpsert, h]

theorem sqlUpsert_rows_of_not_any {db : Db} {p : String} (name : String) (ext : Option String)
    (size : Int) (d : Bool) (h : db.rows.any (fun r => r.path == p) = false) :
    (sqlUpsert db p name ext size d).rows =
      db.rows ++ [⟨db.next_id, p, name, ext, size, d⟩] := by
  simp [sqlUpsert, h]

/-- Upserting preserves global path uniqueness. -/
theorem sqlUpsert_pathsUnique {db : Db} (h : PathsUnique db.rows) (p name : String)
    (ext : Option String) (size : Int) (d : Bool) :
    PathsUnique (sqlUpsert db p name ext size d).rows := by
  by_cases hany : db.rows.any (fun r => r.path == p) = true
  · rw [sqlUpsert_rows_of_any name ext size d hany]
    refine List.Pairwise.map _ (fun a b hab => ?_) h
    rw [upd_path, upd_path]
    exact hab
  · have hfalse : db.rows.any (fun r => r.path == p) = false := by
      simp only [Bool.not_eq_true] at hany
      exact hany
    rw [sqlUpsert_rows_of_not_any name ext size d hfalse]
    rw [PathsUnique, List.pairwise_append]
    refine ⟨h, List.pairwise_singleton _ _, fun a ha b hb => ?_⟩
    rw [List.mem_singleton] at hb
    subst hb
    have := List.any_eq_false.mp hfalse a ha
    simpa using this

/-- After an upsert, some row carries the upserted path. -/
theorem sqlUpsert_mem_path (db : Db) (p name : String) (ext : Option String) (size : Int)
    (d : Bool) : ∃ r ∈ (sqlUpsert db p name ext size d).rows, r.path = p := by
  by_cases hany : db.rows.any (fun r => r.path == p) = true
  · obtain ⟨r, hr, hrp⟩ := List.any_eq_true.mp hany
    rw [sqlUpsert_rows_of_any name ext size d hany]
    refine ⟨_, List.mem_map.mpr ⟨r, hr, rfl⟩, ?_⟩
    rw [upd_path]
    exact beq_iff_eq.mp hrp
  · rw [sqlUpsert_rows_of_not_any name ext size d (by simpa using hany)]
    exact ⟨_, List.mem_append_right _ (List.mem_cons_self _ _), rfl⟩

/-- An upsert never removes a path from the table. -/
theorem sqlUpsert_mem_path_preserved {db : Db} {q : String}
    (h : ∃ r ∈ db.rows, r.path = q) (p name : String) (ext : Option String) (size : Int)
    (d : Bool) : ∃ r ∈ (sqlUpsert db p name ext size d).rows, r.path = q := by
  obtain ⟨r, hr, hrq⟩ := h
  by_cases hany : db.rows.any (fun r => r.path == p) = true
  · rw [sqlUpsert_rows_of_any name ext size d hany]
    refine ⟨_, List.mem_map.mpr ⟨r, hr, rfl⟩, ?_⟩
    rw [upd_path]
    exact hrq
  · rw [sqlUpsert_rows_of_not_any name ext size d (by simpa using hany)]
    exact ⟨r, List.mem_append_left _ hr, hrq⟩

/-- In a table with unique paths, filtering by one path yields nothing or a
single row carrying that path. -/
theorem filter_path_of_unique {rows : List IndexedFile} {p : String}
    (h : PathsUnique rows) :
    rows.filter (fun r => r.path == p) = [] ∨
    ∃ r, rows.filter (fun r => r.path == p) = [r] ∧ r.path = p := by
  induction rows with
  | nil => exact Or.inl rfl
  | cons a rest ih =>
    obtain ⟨hal, hrest⟩ := List.pairwise_cons.mp h
    by_cases hp : (a.path == p) = true
    · right
      have hap : a.path = p := beq_iff_eq.mp hp
      refine ⟨a, ?_, hap⟩
      rw [List.filter_cons, if_pos hp]
      have : rest.filter (fun r => r.path == p) = [] := by
        refine List.filter_eq_nil_iff.mpr fun b hb => ?_
        have hne : a.path ≠ b.path := hal b hb
        simp only [beq_iff_eq]
        intro hbp
        exact hne (hap.trans hbp.symm)
      rw [this]
    · rw [List.filter_cons, if_neg hp]
      exact ih hrest

/-- Upserting path `p` into a unique-path table leaves exactly one row with
path `p`, carrying the upserted attributes (its rowid is the old row's or
the fresh one). -/
theorem sqlUpsert_filter_same {db : Db} (h : PathsUnique db.rows) (p name : String)
    (ext : Option String) (size : Int) (d : Bool) :
    ∃ i, (sqlUpsert db p name ext size d).rows.filter (fun r => r.path == p) =
      [⟨i, p, name, ext, size, d⟩] := by
  by_cases hany : db.rows.any (fun r => r.path == p) = true
  · rw [sqlUpsert_rows_of_any name ext size d hany, List.filter_map]
    have hqf : ((fun r : IndexedFile => r.path == p) ∘ (fun r =>
        if r.path == p then
          { r with name := name, extension := ext, size := size, is_directory := d }
        else r)) = (fun r : IndexedFile => r.path == p) := by
      funext r
      simp only [Function.comp]
      rw [upd_path]
    rw [hqf]
    rcases filter_path_of_unique h with hnil | ⟨r, hr, hrp⟩
    · exfalso
      obtain ⟨r, hr, hp⟩ := List.any_eq_true.mp hany
      have : r ∈ db.rows.filter (fun r => r.path == p) := List.mem_filter.mpr ⟨hr, hp⟩
      rw [hnil] at this
      exact List.not_mem_nil r this
    · rw [hr]
      refine ⟨r.id, ?_⟩
      have hpp : (r.path == p) = true := beq_iff_eq.mpr hrp
      simp only [List.map_cons, List.map_nil, if_pos hpp]
      cases r
      simp_all
  · have hfalse : db.rows.any (fun r => r.path == p) = false := by
      simp only [Bool.not_eq_true] at hany
      exact hany
    rw [sqlUpsert_rows_of_not_any name ext size d hfalse, List.filter_append]
    have h1 : db.rows.filter (fun r => r.path == p) = [] :=
      List.filter_eq_nil_iff.mpr (List.any_eq_false.mp hfalse)
    rw [h1]
    exact ⟨db.next_id, by simp⟩

/-- Upserting path `p` does not change the rows carrying any other path. -/
theorem sqlUpsert_filter_other {db : Db} {p q : String} (hq : q ≠ p) (name : String)
    (ext : Option String) (size : Int) (d : Bool) :
    (sqlUpsert db p name ext size d).rows.filter (fun r => r.path == q) =
      db.rows.filter (fun r => r.path == q) := by
  by_cases hany : db.rows.any (fun r => r.path == p) = true
  · rw [sqlUpsert_rows_of_any name ext size d hany, List.filter_map]
    have hqf : ((fun r : IndexedFile => r.path == q) ∘ (fun r =>
        if r.path == p then
          { r with name := name, extension := ext, size := size, is_directory := d }
        else r)) = (fun r : IndexedFile => r.path == q) := by
      funext r
      simp only [Function.comp]
      rw [upd_path]
    rw [hqf]
    have : ∀ a ∈ db.rows.filter (fun r => r.path == q),
        (fun r : IndexedFile =>
          if r.path == p then
            { r with name := name, extension := ext, size := size, is_directory := d }
          else r) a = id a := by
      intro a ha
      have haq : a.path = q := beq_iff_eq.mp (List.mem_filter.mp ha).2
      have : (a.path == p) = false := by
        simp only [beq_eq_false_iff_ne, ne_eq]
        rw [haq]
        exact hq
      simp [this]
    rw [List.map_congr_left this, List.map_id]
  · have hfalse : db.rows.any (fun r => r.path == p) = false := by
      simp only [Bool.not_eq_true] at hany
      exact hany
    rw [sqlUpsert_rows_of_not_any name ext size d hfalse, List.filter_append]
    have : [(⟨db.next_id, p, name, ext, size, d⟩ : IndexedFile)].filter
        (fun r => r.path == q) = [] := by
      simp [beq_eq_false_iff_ne, Ne.symm hq]
    rw [this, List.append_nil]

/-- Path presence is preserved by any fold of upserts. -/
theorem foldl_mem_path_preserved {α : Type} (step : Db → α → Db)
    (hstep : ∀ db a q, (∃ r ∈ db.rows, r.path = q) → ∃ r ∈ (step db a).rows, r.path = q) :
    ∀ (l : List α) (db : Db) (q : String),
      (∃ r ∈ db.rows, r.path = q) → ∃ r ∈ (l.foldl step db).rows, r.path = q := by
  intro l
  induction l with
  | nil => exact fun db q h => h
  | cons a rest ih => exact fun db q h => ih (step db a) q (hstep db a q h)

/-- Every element of a fold of upserts ends up with its path present. -/
theorem foldl_mem_path_of_mem {α : Type} (step : Db → α → Db) (pathOf : α → String)
    (hstep : ∀ db a q, (∃ r ∈ db.rows, r.path = q) → ∃ r ∈ (step db a).rows, r.path = q)
    (hintro : ∀ db a, ∃ r ∈ (step db a).rows, r.path = pathOf a) :
    ∀ (l : List α) (db : Db) (a : α), a ∈ l →
      ∃ r ∈ (l.foldl step db).rows, r.path = pathOf a := by
  intro l
  induction l with
  | nil => intro db a h; exact absurd h (List.not_mem_nil a)
  | cons b rest ih =>
    intro db a h
    rcases List.mem_cons.mp h with h | h
    · subst h
      exact foldl_mem_path_preserved step hstep rest (step db a) (pathOf a) (hintro db a)
    · exact ih (step db b) a h

/-- The state of the files table after a sequence of upserts: paths stay
unique, the rows carrying path `p` are determined by the last upsert on `p`
(exactly one row, with the attributes of that upsert), and paths never
upserted keep their original rows. -/
theorem apply_upserts_spec (ops : List (String × Bool × Int)) :
    ∀ (db : Db), PathsUnique db.rows → ∀ (p : String),
      PathsUnique (apply_upserts db ops).rows ∧
      (∀ d s, lastUpsert ops p = some (d, s) →
        ∃ i, (apply_upserts db ops).rows.filter (fun r => r.path == p) =
          [⟨i, p, fileName p, computedExtension p d, s, d⟩]) ∧
      (lastUpsert ops p = none →
        (apply_upserts db ops).rows.filter (fun r => r.path == p) =
          db.rows.filter (fun r => r.path == p)) := by
  induction ops with
  | nil =>
    intro db h p
    refine ⟨h, fun d s hds => by simp [lastUpsert] at hds, fun _ => rfl⟩
  | cons o rest ih =>
    obtain ⟨op, od, os⟩ := o
    intro db h p
    have hstep : apply_upserts db ((op, od, os) :: rest) =
        apply_upserts (db.upsert_file op od os) rest := rfl
    have h' : PathsUnique (db.upsert_file op od os).rows :=
      sqlUpsert_pathsUnique h op _ _ _ _
    obtain ⟨hU, hsome, hnone⟩ := ih (db.upsert_file op od os) h' p
    rw [hstep]
    refine ⟨hU, ?_, ?_⟩
    · intro d s hds
      rw [lastUpsert] at hds
      cases hrest : lastUpsert rest p with
      | some ds =>
        rw [hrest] at hds
        injection hds with h2
        subst h2
        exact hsome d s hrest
      | none =>
        rw [hrest] at hds
        by_cases hop : op = p
        · rw [if_pos hop] at hds
          injection hds with h2
          have hd : od = d := congrArg Prod.fst h2
          have hs : os = s := congrArg Prod.snd h2
          subst hop
          subst hd
          subst hs
          rw [hnone hrest]
          exact sqlUpsert_filter_same h op (fileName op) (computedExtension op od) os od
        · rw [if_neg hop] at hds
          exact Option.noConfusion hds
    · intro hn
      rw [lastUpsert] at hn
      cases hrest : lastUpsert rest p with
      | some ds =>
        rw [hrest] at hn
        exact Option.noConfusion hn
      | none =>
        rw [hrest] at hn
        by_cases hop : op = p
        · rw [if_pos hop] at hn
          exact Option.noConfusion hn
        · rw [if_neg hop] at hn
          rw [hnone hrest]
          exact sqlUpsert_filter_other (fun hpq => hop hpq.symm) _ _ _ _

/-! ## Claim theorems -/

/-- C1 (amended): after any sequence of upserts from a unique-path table,
the files table holds at most one row whose path equals `P`; and provided
`max_results` does not truncate the result set, a search whose term
LIKE-matches `P`'s name returns exactly one record whose path equals `P`,
carrying the attributes of the most recent upsert of `P`. -/
theorem upsert_search_unique (db : Db) (hU : PathsUnique db.rows)
    (ops : List (String × Bool × Int)) (p : String) (d : Bool) (s : Int)
    (hlast : lastUpsert ops p = some (d, s)) (term : String) (max_results : Nat)
    (hmatch : likeMatch ("%" ++ term ++ "%").data (fileName p).data = true)
    (hmax : (matchingRows (apply_upserts db ops) term none).length ≤ max_results) :
    ((apply_upserts db ops).rows.filter (fun r => r.path == p)).length ≤ 1 ∧
    ∃ i, (Db.search (apply_upserts db ops) term max_results none).files.filter
        (fun r => r.path == p) =
      [⟨i, p, fileName p, computedExtension p d, s, d⟩] := by
  obtain ⟨hUniq, hsome, _⟩ := apply_upserts_spec ops db hU p
  obtain ⟨i, hfilter⟩ := hsome d s hlast
  constructor
  · rw [hfilter]
    exact le_refl 1
  · refine ⟨i, ?_⟩
    have hfiles : (Db.search (apply_upserts db ops) term max_results none).files =
        matchingRows (apply_upserts db ops) term none := List.take_of_length_le hmax
    rw [hfiles]
    have hswap : List.filter (fun r => r.path == p)
          (matchingRows (apply_upserts db ops) term none) =
        List.filter (fun r => likeMatch ("%" ++ term ++ "%").data r.name.data)
          (List.filter (fun r => r.path == p) (apply_upserts db ops).rows) := by
      show List.filter _ (List.filter _ (apply_upserts db ops).rows) = _
      rw [List.filter_filter, List.filter_filter]
      exact List.filter_congr fun r _ => Bool.and_comm _ _
    rw [hswap, hfilter, List.filter_cons]
    simp only [hmatch, List.filter_nil, if_pos rfl]
    rfl

/-- C1 witness: two upserts of `/x/a.txt` (sizes 100 then 7) into an empty
index; searching `"a"` with room for all matches returns exactly the one
row with path `/x/a.txt` and size 7. -/
theorem upsert_search_unique_witness :
    ((apply_upserts emptyDb [("/x/a.txt", false, 100), ("/x/a.txt", false, 7)]).rows.filter
      (fun r => r.path == "/x/a.txt")).length ≤ 1 ∧
    ∃ i, (Db.search (apply_upserts emptyDb [("/x/a.txt", false, 100), ("/x/a.txt", false, 7)])
        "a" 10 none).files.filter (fun r => r.path == "/x/a.txt") =
      [⟨i, "/x/a.txt", fileName "/x/a.txt", computedExtension "/x/a.txt" false, 7, false⟩] :=
  upsert_search_unique emptyDb (List.Pairwise.nil)
    [("/x/a.txt", false, 100), ("/x/a.txt", false, 7)] "/x/a.txt" false 7 (by decide)
    "a" 10 (by decide) (by decide)

/-- C1 counterexample: as literally stated the claim fails for a search
whose `max_results` truncates the result: after upserting `/x/a.txt`, the
term `"a"` matches the name `a.txt`, yet `search("a", 0, None)` returns no
record with path `/x/a.txt` at all. -/
theorem upsert_search_unique_cex :
    likeMatch ("%" ++ "a" ++ "%").data (fileName "/x/a.txt").data = true ∧
    (Db.search dbSingleFile "a" 0 none).files.filter (fun r => r.path == "/x/a.txt") = [] := by
  decide

/-- C2: a batch upsert that aborts before its transaction commits leaves
the files table exactly as it was (no partial batch is visible), and a
committed batch makes every record of the batch visible (its path is
present in the table).  Both batch entry points share this behaviour. -/
theorem batch_upsert_atomicity (db : Db) (files : List FileMetadata)
    (entries : List (String × Bool)) (fs_size : String → Int) :
    Db.batch_upsert_files_with_metadata db files false = db ∧
    Db.batch_upsert_files db entries fs_size false = db ∧
    (∀ f ∈ files, ∃ r ∈ (Db.batch_upsert_files_with_metadata db files true).rows,
      r.path = f.path) ∧
    (∀ e ∈ entries, ∃ r ∈ (Db.batch_upsert_files db entries fs_size true).rows,
      r.path = e.1) := by
  refine ⟨rfl, rfl, ?_, ?_⟩
  · intro f hf
    have hpres : ∀ (d : Db) (a : FileMetadata) (q : String),
        (∃ r ∈ d.rows, r.path = q) → ∃ r ∈ (upsertMeta d a).rows, r.path = q :=
      fun d a q h => sqlUpsert_mem_path_preserved h a.path _ _ _ _
    have hintro : ∀ (d : Db) (a : FileMetadata),
        ∃ r ∈ (upsertMeta d a).rows, r.path = a.path :=
      fun d a => sqlUpsert_mem_path d a.path _ _ _ _
    exact foldl_mem_path_of_mem upsertMeta (fun f => f.path) hpres hintro files db f hf
  · intro e he
    have hpres : ∀ (d : Db) (a : String × Bool) (q : String),
        (∃ r ∈ d.rows, r.path = q) →
          ∃ r ∈ (batchEntryUpsert fs_size d a).rows, r.path = q :=
      fun d a q h => sqlUpsert_mem_path_preserved h a.1 _ _ _ _
    have hintro : ∀ (d : Db) (a : String × Bool),
        ∃ r ∈ (batchEntryUpsert fs_size d a).rows, r.path = a.1 :=
      fun d a => sqlUpsert_mem_path d a.1 _ _ _ _
    exact foldl_mem_path_of_mem (batchEntryUpsert fs_size) (fun e => e.1) hpres hintro
      entries db e he

/-- C2 witness: a committed two-record metadata batch makes both paths
visible, and a committed walkdir batch makes its entry visible. -/
theorem batch_upsert_atomicity_witness :
    (∃ r ∈ (Db.batch_upsert_files_with_metadata emptyDb
        [⟨"/m/a.bin", "a.bin", 3, false⟩, ⟨"/m", "m", 0, true⟩] true).rows,
      r.path = "/m/a.bin") ∧
    (∃ r ∈ (Db.batch_upsert_files emptyDb [("/w/x.txt", false)] (fun _ => 9) true).rows,
      r.path = "/w/x.txt") :=
  ⟨(batch_upsert_atomicity emptyDb [⟨"/m/a.bin", "a.bin", 3, false⟩, ⟨"/m", "m", 0, true⟩]
      [] (fun _ => 0)).2.2.1 ⟨"/m/a.bin", "a.bin", 3, false⟩ (by decide),
   (batch_upsert_atomicity emptyDb [] [("/w/x.txt", false)] (fun _ => 9)).2.2.2
      ("/w/x.txt", false) (by decide)⟩

/-- C3: `SearchManager::search` is a total function into `SearchResult`
(it can never propagate an error), and whenever the primary's query fails
and every configured fallback's query fails too, it returns the degraded
result `{files: [], total_found: 0, query_time_ms: 0, backend_name:
"none"}`. -/
theorem search_manager_never_errors (m : SearchManager) (q : SearchQuery)
    (hp : ∃ e, m.primary.run q = Except.error e)
    (hf : ∀ fb, m.fallback = some fb → ∃ e, fb.run q = Except.error e) :
    (SearchManager.search m q).1 = emptySearchResult := by
  obtain ⟨e, he⟩ := hp
  by_cases hflag : m.using_fallback = true
  · cases hfb : m.fallback with
    | some fb =>
      obtain ⟨e2, he2⟩ := hf fb hfb
      simp [SearchManager.search, search_with_fallback, hflag, hfb, he2]
    | none =>
      simp [SearchManager.search, search_with_fallback, hflag, hfb, he]
  · have hflag2 : m.using_fallback = false := by
      simp only [Bool.not_eq_true] at hflag
      exact hflag
    cases e with
    | notAvailable =>
      cases hfb : m.fallback with
      | some fb =>
        obtain ⟨e2, he2⟩ := hf fb hfb
        simp [SearchManager.search, search_with_fallback, hflag2, hfb, he, he2]
      | none =>
        simp [SearchManager.search, search_with_fallback, hflag2, hfb, he]
    | queryFailed msg =>
      cases hfb : m.fallback with
      | some fb =>
        obtain ⟨e2, he2⟩ := hf fb hfb
        simp [SearchManager.search, search_with_fallback, hflag2, hfb, he, he2]
      | none =>
        simp [SearchManager.search, search_with_fallback, hflag2, hfb, he]
    | databaseError msg =>
      cases hfb : m.fallback with
      | some fb =>
        obtain ⟨e2, he2⟩ := hf fb hfb
        simp [SearchManager.search, search_with_fallback, hflag2, hfb, he, he2]
      | none =>
        simp [SearchManager.search, search_with_fallback, hflag2, hfb, he]

/-- C3 witness: with a down primary and a fallback whose queries fail with
a database error, `search` still returns, with the degraded result. -/
theorem search_manager_never_errors_witness :
    (SearchManager.search allFailManager q0).1 = emptySearchResult :=
  search_manager_never_errors allFailManager q0 ⟨SearchError.notAvailable, rfl⟩
    (fun fb hfb => by
      cases Option.some.inj hfb
      exact ⟨SearchError.databaseError "db locked", rfl⟩)

/-- With the sticky flag set and a fallback configured, one `search` call
delegates to the fallback, leaves the manager unchanged, and never invokes
the primary. -/
theorem search_on_fallback (m : SearchManager) (fb : Backend) (q : SearchQuery)
    (hflag : m.using_fallback = true) (hfb : m.fallback = some fb) :
    SearchManager.search m q =
      ((match fb.run q with
        | Except.ok r => r
        | Except.error _ => emptySearchResult), m, false) := by
  rw [SearchManager.search, if_pos hflag]
  simp only [search_with_fallback, hfb]

/-- With the sticky flag set and a fallback configured, any sequence of
`search` calls leaves the manager state unchanged. -/
theorem run_queries_on_fallback (m : SearchManager) (fb : Backend)
    (hflag : m.using_fallback = true) (hfb : m.fallback = some fb) :
    ∀ qs, run_queries m qs = m
  | [] => rfl
  | q :: qs => by
    rw [run_queries, List.foldl_cons]
    have h1 : (SearchManager.search m q).2.1 = m := by
      rw [search_on_fallback m fb q hflag hfb]
    rw [h1]
    exact run_queries_on_fallback m fb hflag hfb qs

/-- C4: for a manager with a configured fallback that is not yet degraded,
a search observing `NotAvailable` from the primary sets the sticky flag;
from then on every search call returns the fallback's answer without
invoking the primary and without changing the manager state (so the
behaviour persists across any sequence of calls), until
`refresh_availability` finds the primary available and clears the flag. -/
theorem sticky_failover (m : SearchManager) (fb : Backend) (q : SearchQuery)
    (hfb : m.fallback = some fb) (hflag : m.using_fallback = false)
    (hna : m.primary.run q = Except.error SearchError.notAvailable) :
    ((SearchManager.search m q).2.1.using_fallback = true) ∧
    (∀ q2, (SearchManager.search (SearchManager.search m q).2.1 q2).2.2 = false ∧
      (SearchManager.search (SearchManager.search m q).2.1 q2).2.1 =
        (SearchManager.search m q).2.1 ∧
      (SearchManager.search (SearchManager.search m q).2.1 q2).1 =
        (match fb.run q2 with
         | Except.ok r => r
         | Except.error _ => emptySearchResult)) ∧
    (∀ qs, run_queries (SearchManager.search m q).2.1 qs = (SearchManager.search m q).2.1) ∧
    (m.primary.is_available = true →
      ((SearchManager.search m q).2.1.refresh_availability).using_fallback = false) := by
  have hstate : (SearchManager.search m q).2.1 = { m with using_fallback := true } := by
    rw [SearchManager.search, if_neg (by simp [hflag]), hna]
  have hflag2 : ({ m with using_fallback := true } : SearchManager).using_fallback = true := rfl
  have hfb2 : ({ m with using_fallback := true } : SearchManager).fallback = some fb := hfb
  refine ⟨by rw [hstate], fun q2 => ?_, fun qs => ?_, fun havail => ?_⟩
  · rw [hstate, search_on_fallback _ fb q2 hflag2 hfb2]
    exact ⟨rfl, rfl, rfl⟩
  · rw [hstate]
    exact run_queries_on_fallback _ fb hflag2 hfb2 qs
  · rw [hstate, SearchManager.refresh_availability]
    simp [havail]

/-- C4 witness: a primary that answers `NotAvailable` (but probes
available) next to a working fallback; after one search the flag is
sticky, the next call does not invoke the primary, and a refresh clears
the flag. -/
theorem sticky_failover_witness :
    ((SearchManager.search recoveringManager q0).2.1.using_fallback = true) ∧
    ((SearchManager.search (SearchManager.search recoveringManager q0).2.1 q0).2.2 = false) ∧
    (((SearchManager.search recoveringManager q0).2.1.refresh_availability).using_fallback
      = false) := by
  have h := sticky_failover recoveringManager okFallback q0 rfl rfl rfl
  exact ⟨h.1, (h.2.1 q0).1, h.2.2.2 rfl⟩

/-- C5 (amended): `search` returns at most `max_results` records; every
returned record's name matches the term as a SQLite LIKE substring pattern
(ASCII-case-insensitively, with `%` and `_` in the term acting as
wildcards — for wildcard-free terms this is substring containment up to
ASCII case); with an extension filter every returned record's extension
equals the filter exactly; and on the spec's three-record state,
`search("a", 10, None)` returns exactly `/x/a.txt`,
`search("", 10, Some(".log"))` returns exactly `/x/b.log`, and `get_stats`
reports 2 files and 1 directory. -/
theorem db_search_semantics (db : Db) (q : String) (max_results : Nat)
    (e : Option String) :
    (Db.search db q max_results e).files.length ≤ max_results ∧
    (∀ r, r ∈ (Db.search db q max_results e).files →
      likeMatch ("%" ++ q ++ "%").data r.name.data = true) ∧
    (∀ ext0 r, r ∈ (Db.search db q max_results (some ext0)).files →
      r.extension = some ext0) ∧
    (Db.search exampleDb "a" 10 none).files.map (fun r => r.path) = ["/x/a.txt"] ∧
    (Db.search exampleDb "" 10 (some ".log")).files.map (fun r => r.path) = ["/x/b.log"] ∧
    (Db.get_stats exampleDb).indexed_files = 2 ∧
    (Db.get_stats exampleDb).indexed_dirs = 1 := by
  refine ⟨List.length_take_le _ _, ?_, ?_, by decide, by decide, by decide, by decide⟩
  · intro r hr
    have hr2 : r ∈ matchingRows db q e := List.take_subset _ _ hr
    cases e with
    | none => exact (List.mem_filter.mp hr2).2
    | some ext0 =>
      have hb := (List.mem_filter.mp hr2).2
      rw [Bool.and_eq_true] at hb
      exact hb.2
  · intro ext0 r hr
    have hr2 : r ∈ matchingRows db q (some ext0) := List.take_subset _ _ hr
    have hb := (List.mem_filter.mp hr2).2
    rw [Bool.and_eq_true] at hb
    exact of_decide_eq_true hb.1

/-- C5 witness: on the spec's state, the returned record `a.txt`
LIKE-matches the term `"a"`, and the record returned under the `.log`
filter carries exactly that extension. -/
theorem db_search_semantics_witness :
    likeMatch ("%" ++ "a" ++ "%").data (String.data "a.txt") = true ∧
    (⟨2, "/x/b.log", "b.log", some ".log", 50, false⟩ : IndexedFile).extension =
      some ".log" :=
  ⟨(db_search_semantics exampleDb "a" 10 none).2.1
      ⟨1, "/x/a.txt", "a.txt", some ".txt", 100, false⟩ (by decide),
   (db_search_semantics exampleDb "" 10 none).2.2.1 ".log"
      ⟨2, "/x/b.log", "b.log", some ".log", 50, false⟩ (by decide)⟩

/-- C5 counterexample: as literally stated ("every returned record's name
contains term as a substring") the claim fails: the term `a_` is returned
against the name `ab` (`_` is a LIKE wildcard), yet `a_` is not a
substring of `ab`. -/
theorem db_search_substring_cex :
    (Db.search dbNameAB "a_" 10 none).files.map (fun r => r.name) = ["ab"] ∧
    isSubstringOf "a_" "ab" = false := by
  decide

/-- C6 (amended): `delete_subtree(D)` removes every record whose path
literally starts with the separator-normalized `D` (the directory record
itself included); precisely, a record survives iff its path does not match
the SQLite LIKE pattern `D%`, so records whose paths merely LIKE-match
(via `%`/`_` wildcards in `D` or ASCII case folding) are removed as
well. -/
theorem delete_directory_semantics (db : Db) (directory : String) (r : IndexedFile) :
    (r ∈ db.rows → (normalizeSeparators directory).data.isPrefixOf r.path.data = true →
      r ∉ (db.delete_directory directory).rows) ∧
    (r ∈ (db.delete_directory directory).rows ↔
      r ∈ db.rows ∧
        likeMatch ((normalizeSeparators directory).data ++ ['%']) r.path.data = false) := by
  constructor
  · intro _ hpre hcontra
    have hmem := (List.mem_filter.mp hcontra).2
    rw [Bool.not_eq_true'] at hmem
    obtain ⟨t, ht⟩ := List.isPrefixOf_iff_prefix.mp hpre
    rw [← ht, likeMatch_append_percent] at hmem
    exact Bool.noConfusion hmem
  · constructor
    · intro hmem
      have h2 := List.mem_filter.mp hmem
      rw [Bool.not_eq_true'] at h2
      exact h2
    · intro ⟨h1, h2⟩
      exact List.mem_filter.mpr ⟨h1, by rw [Bool.not_eq_true', h2]⟩

/-- C6 witness: `/a/b/c.txt` starts with `/a/b`, so `delete_subtree("/a/b")`
removes it. -/
theorem delete_directory_semantics_witness :
    (⟨1, "/a/b/c.txt", "c.txt", some ".txt", 1, false⟩ : IndexedFile) ∉
      ((emptyDb.upsert_file "/a/b/c.txt" false 1).delete_directory "/a/b").rows :=
  (delete_directory_semantics (emptyDb.upsert_file "/a/b/c.txt" false 1) "/a/b"
    ⟨1, "/a/b/c.txt", "c.txt", some ".txt", 1, false⟩).1 (by decide) (by decide)

/-- C6 counterexample: as literally stated ("removes no record whose path
does not start with D") the claim fails: `delete_subtree("/a_b")` removes
the record `/axb` (the `_` in the prefix is a LIKE wildcard) although
`/axb` does not start with `/a_b`. -/
theorem delete_directory_cex :
    (String.data "/a_b").isPrefixOf (String.data "/axb") = false ∧
    dbPathAXB.rows.map (fun r => r.path) = ["/axb"] ∧
    (dbPathAXB.delete_directory "/a_b").rows = [] := by
  decide

/-- C7 counterexample: the watcher handles a removal event for the
directory `/d` (indexed together with `/d/f.txt`) by `delete`, not
`delete_subtree`: the descendant record `/d/f.txt` survives, whereas
`delete_subtree("/d")` would remove both rows. -/
theorem watcher_remove_directory_cex :
    process_event_path dbDirTree (fun _ => false) FsEventKind.remove "/d" true 0 false ≠
      dbDirTree.delete_directory "/d" ∧
    (process_event_path dbDirTree (fun _ => false) FsEventKind.remove "/d" true 0
      false).rows.map (fun r => r.path) = ["/d/f.txt"] ∧
    (dbDirTree.delete_directory "/d").rows = [] := by
  decide

/-- C7 (amended): for every removal event whose path is not excluded, the
watcher issues the single-path `delete` regardless of whether the removed
entry was a file or a directory; descendant records of a removed directory
are not deleted. -/
theorem watcher_remove_single_delete (db : Db) (excluded : String → Bool) (path : String)
    (fs_is_dir : Bool) (fs_size : Int) (fs_exists : Bool)
    (h : excluded path = false) :
    process_event_path db excluded FsEventKind.remove path fs_is_dir fs_size fs_exists =
      db.delete_file path := by
  simp [process_event_path, h]

/-- C7 witness: removing the file `/d/f.txt` (not excluded) deletes exactly
that path. -/
theorem watcher_remove_single_delete_witness :
    process_event_path dbDirTree (fun _ => false) FsEventKind.remove "/d/f.txt" false 0
      false = dbDirTree.delete_file "/d/f.txt" :=
  watcher_remove_single_delete dbDirTree (fun _ => false) "/d/f.txt" false 0 false rfl

/-- C8: `start_initial_scan` skips the scanning pass entirely — returning
success with the stored rows untouched — exactly when `get_stats` reports
a nonzero count of indexed files; the pass runs only when that count is
zero. -/
theorem skip_scan_if_populated (db : Db) (scan : Db → Db) :
    (0 < (Db.get_stats db).indexed_files → start_initial_scan db scan = (db, false)) ∧
    ((Db.get_stats db).indexed_files = 0 → start_initial_scan db scan = (scan db, true)) := by
  constructor
  · intro h
    rw [start_initial_scan, if_pos h]
  · intro h
    rw [start_initial_scan, if_neg (by omega)]

/-- C8 witness: with one file indexed the scan is skipped and the state is
returned unchanged; with only a directory indexed the file count is zero
and the pass runs. -/
theorem skip_scan_if_populated_witness :
    (0 < (Db.get_stats dbSingleFile).indexed_files ∧
      start_initial_scan dbSingleFile id = (dbSingleFile, false)) ∧
    ((Db.get_stats (emptyDb.upsert_file "/onlydir" true 0)).indexed_files = 0 ∧
      start_initial_scan (emptyDb.upsert_file "/onlydir" true 0) id =
        (id (emptyDb.upsert_file "/onlydir" true 0), true)) :=
  ⟨⟨by decide, (skip_scan_if_populated dbSingleFile id).1 (by decide)⟩,
   ⟨by decide, (skip_scan_if_populated (emptyDb.upsert_file "/onlydir" true 0) id).2
      (by decide)⟩⟩

/-- C9: the IPC `Search` handler forwards only the query, the defaulted
`max_results`, and the first element of `extensions` to the database
search; two requests over the same database state agreeing on those —
i.e. differing only in `directories` or in `extensions` past the first
element — receive identical responses. -/
theorem ipc_search_ignored_fields (db : Db) (r1 r2 : SearchRequest)
    (hq : r1.query = r2.query) (hm : r1.max_results = r2.max_results)
    (hx : r1.extensions.bind List.head? = r2.extensions.bind List.head?) :
    handle_search_request db r1 = handle_search_request db r2 := by
  rw [handle_search_request, handle_search_request, hq, hm, hx]

/-- C9 witness: a request with a directory filter and a two-element
extension list gets the same response as one with no directories and only
the first extension. -/
theorem ipc_search_ignored_fields_witness :
    handle_search_request dbSingleFile
      ⟨"a", some 10, some [".txt", ".log"], some ["/x"]⟩ =
    handle_search_request dbSingleFile ⟨"a", some 10, some [".txt"], none⟩ :=
  ipc_search_ignored_fields dbSingleFile
    ⟨"a", some 10, some [".txt", ".log"], some ["/x"]⟩
    ⟨"a", some 10, some [".txt"], none⟩ rfl rfl rfl

/-- C10: `search`'s `total_found` equals the length of the returned `files`
list, which is the match count clipped to `max_results` — so `total_found`
never exceeds `max_results`, even when more rows match the query. -/
theorem search_total_found_capped (db : Db) (q : String) (max_results : Nat)
    (e : Option String) :
    (Db.search db q max_results e).total_found =
      (Db.search db q max_results e).files.length ∧
    (Db.search db q max_results e).files.length =
      min max_results (matchingRows db q e).length ∧
    (Db.search db q max_results e).total_found ≤ max_results := by
  refine ⟨rfl, List.length_take _ _, List.length_take_le _ _⟩
